import Mathlib

/-!
Shallow embedding of `src/paula/audio/vad.py` (`VoiceActivityDetector`).

Audio samples are modelled as `Int` values: the detector never computes with
sample values, it only buffers, slices and concatenates them (the float→PCM
conversion feeds the external WebRTC classifier, which is abstracted as a
classifier function `cls : List Int → Bool`, resp. a fallible
`raw : List Int → Except String Bool`).

Python `int(x / 30)` on an integer `x` truncates toward zero, which is
`Int.tdiv` (T-division); for the integer millisecond values in play the float
division is exact enough that the two agree.
-/

namespace Paula

/-- The derived per-instance parameters of `VoiceActivityDetector.__init__`:
frame size in samples and the three thresholds converted to frame counts.
Thresholds are `Int` because the constructor accepts negative millisecond
values (it never validates them). -/
structure VAD where
  sampleRate : Int
  aggressiveness : Int
  frameSize : Nat
  silenceFramesThreshold : Int
  minSpeechFrames : Int
  paddingFrames : Int
  deriving Repr, DecidableEq

/-- The mutable state of a `VoiceActivityDetector` instance:
`_speech_buffer`, `_pre_speech_buffer` (the padding ring), `_silence_frames`,
`_speech_frames`, `_is_speaking`, `_chunk_buffer`. -/
structure VADState where
  speechBuffer : List (List Int)
  preSpeechBuffer : List (List Int)
  silenceFrames : Nat
  speechFrames : Nat
  isSpeaking : Bool
  chunkBuffer : List Int
  deriving Repr, DecidableEq

/-- The state every field is initialised to in `__init__`, and that `reset()`
re-establishes. -/
def vadInit : VADState :=
  { speechBuffer := []
    preSpeechBuffer := []
    silenceFrames := 0
    speechFrames := 0
    isSpeaking := false
    chunkBuffer := [] }

/-- `VoiceActivityDetector.__init__`: validates `sample_rate` and
`aggressiveness` (raising `ValueError`, modelled as `Except.error`), then
derives the frame size (30 ms frames) and the frame-count thresholds.
The three millisecond thresholds are stored without validation. -/
def mkVAD (sample_rate aggressiveness silence_threshold_ms min_speech_ms
    speech_padding_ms : Int) : Except String (VAD × VADState) :=
  if sample_rate ≠ 8000 ∧ sample_rate ≠ 16000 ∧ sample_rate ≠ 32000 ∧
      sample_rate ≠ 48000 then
    Except.error "Sample rate must be 8000, 16000, 32000, or 48000"
  else if ¬ (0 ≤ aggressiveness ∧ aggressiveness < 4) then
    Except.error "Aggressiveness must be 0-3"
  else
    Except.ok
      ({ sampleRate := sample_rate
         aggressiveness := aggressiveness
         frameSize := (Int.tdiv (sample_rate * 30) 1000).toNat
         silenceFramesThreshold := Int.tdiv silence_threshold_ms 30
         minSpeechFrames := Int.tdiv min_speech_ms 30
         paddingFrames := Int.tdiv speech_padding_ms 30 }, vadInit)

/-- `VoiceActivityDetector._is_speech` around a fallible external classifier
`raw` (WebRTC `Vad.is_speech`, which may raise): on `Except.error` the frame
is reported as non-speech and the exception is swallowed (lines 99-104). -/
def isSpeechImpl (raw : List Int → Except String Bool) (frame : List Int) :
    Bool :=
  match raw frame with
  | Except.ok b => b
  | Except.error _ => false

/-- The padding-ring update on a non-speech frame (lines 147-150): append the
frame, then pop the oldest element once if the length now exceeds
`_padding_frames`. -/
def pushRing (v : VAD) (ring : List (List Int)) (frame : List Int) :
    List (List Int) :=
  let ring' := ring ++ [frame]
  if v.paddingFrames < (ring'.length : Int) then ring'.tail else ring'

/-- The body of the per-frame part of `process_chunk` (lines 129-173): one
classified frame updates the state and possibly produces a completed segment.
`cls` stands for `self._is_speech`. -/
def processFrame (v : VAD) (cls : List Int → Bool) (s : VADState)
    (frame : List Int) : VADState × Option (List Int) :=
  if cls frame then
    let s1 :=
      if s.isSpeaking then s
      else
        { s with
          isSpeaking := true
          speechFrames := 0
          speechBuffer :=
            if s.preSpeechBuffer = [] then s.speechBuffer
            else s.preSpeechBuffer }
    ({ s1 with
        speechBuffer := s1.speechBuffer ++ [frame]
        speechFrames := s1.speechFrames + 1
        silenceFrames := 0 }, none)
  else
    let ring := pushRing v s.preSpeechBuffer frame
    if s.isSpeaking then
      let buf := s.speechBuffer ++ [frame]
      let sil := s.silenceFrames + 1
      if v.silenceFramesThreshold ≤ (sil : Int) then
        ({ s with
            preSpeechBuffer := ring
            speechBuffer := []
            silenceFrames := 0
            speechFrames := 0
            isSpeaking := false },
          if v.minSpeechFrames ≤ (s.speechFrames : Int) then some buf.flatten
          else none)
      else
        ({ s with
            preSpeechBuffer := ring
            speechBuffer := buf
            silenceFrames := sil }, none)
    else
      ({ s with preSpeechBuffer := ring }, none)

/-- The treatment of `process_chunk`'s single `result` slot: an emission
overwrites it, no emission leaves it. -/
def overwrite (o r : Option (List Int)) : Option (List Int) :=
  match o with
  | some seg => some seg
  | none => r

/-- The `while len(self._chunk_buffer) >= self._frame_size` loop of
`process_chunk` (lines 125-173), with fuel. Each iteration slices one frame
off the front of the chunk buffer and feeds it to `processFrame`; the result
slot `r` is overwritten only when a frame's evaluation actually emits a
segment (a `None` per-frame outcome leaves `r` untouched, exactly as the
Python code only assigns `result` inside the emission branch). -/
def runFrames (v : VAD) (cls : List Int → Bool) :
    Nat → VADState → Option (List Int) → VADState × Option (List Int)
  | 0, s, r => (s, r)
  | fuel + 1, s, r =>
    if 0 < v.frameSize ∧ v.frameSize ≤ s.chunkBuffer.length then
      let frame := s.chunkBuffer.take v.frameSize
      let s1 := { s with chunkBuffer := s.chunkBuffer.drop v.frameSize }
      runFrames v cls fuel (processFrame v cls s1 frame).1
        (overwrite (processFrame v cls s1 frame).2 r)
    else (s, r)

/-- `VoiceActivityDetector.process_chunk` (lines 106-175): append the chunk to
the carry-over buffer, then run the frame loop. The fuel
`chunkBuffer.length` dominates the number of loop iterations because every
iteration consumes `frameSize ≥ 1` samples. -/
def processChunk (v : VAD) (cls : List Int → Bool) (s : VADState)
    (chunk : List Int) : VADState × Option (List Int) :=
  let s0 := { s with chunkBuffer := s.chunkBuffer ++ chunk }
  runFrames v cls s0.chunkBuffer.length s0 none

/-- `VoiceActivityDetector.reset` (lines 177-185): every state field back to
its initial value. -/
def resetVAD (_s : VADState) : VADState := vadInit

/-- `VoiceActivityDetector.get_buffered_speech` (lines 192-204): returns the
concatenated speech buffer and resets, but only when the buffer is nonempty
and `_speech_frames >= _min_speech_frames`; otherwise it returns `None` and
leaves the state untouched. -/
def getBufferedSpeech (v : VAD) (s : VADState) :
    VADState × Option (List Int) :=
  if s.speechBuffer ≠ [] ∧ v.minSpeechFrames ≤ (s.speechFrames : Int) then
    (vadInit, some s.speechBuffer.flatten)
  else (s, none)

/-- One public operation on a detector instance, for stating invariants over
every reachable state. -/
inductive VADOp where
  | chunk (c : List Int)
  | reset
  | flush
  deriving Repr

/-- Apply one operation to the state (discarding any returned segment). -/
def applyOp (v : VAD) (cls : List Int → Bool) (s : VADState) :
    VADOp → VADState
  | VADOp.chunk c => (processChunk v cls s c).1
  | VADOp.reset => resetVAD s
  | VADOp.flush => (getBufferedSpeech v s).1

/-- Run a sequence of operations from a state. -/
def runOps (v : VAD) (cls : List Int → Bool) (s : VADState)
    (ops : List VADOp) : VADState :=
  ops.foldl (applyOp v cls) s

/-- Feed a sequence of chunks through `process_chunk`, collecting the
per-call results. -/
def runChunks (v : VAD) (cls : List Int → Bool) (s : VADState) :
    List (List Int) → VADState × List (Option (List Int))
  | [] => (s, [])
  | c :: cs =>
    ((runChunks v cls (processChunk v cls s c).1 cs).1,
      (processChunk v cls s c).2 :: (runChunks v cls (processChunk v cls s c).1 cs).2)

/-- The per-frame emission trace of one `process_chunk` call: for every frame
the loop processes, the segment its end-of-speech evaluation emitted (`none`
both when no evaluation happened and when the evaluation discarded a
too-short run). This is the spec-side notion used to compare the single
result slot of `process_chunk` against everything emitted during the call. -/
def frameEmissions (v : VAD) (cls : List Int → Bool) :
    Nat → VADState → List (Option (List Int))
  | 0, _ => []
  | fuel + 1, s =>
    if 0 < v.frameSize ∧ v.frameSize ≤ s.chunkBuffer.length then
      let frame := s.chunkBuffer.take v.frameSize
      let s1 := { s with chunkBuffer := s.chunkBuffer.drop v.frameSize }
      (processFrame v cls s1 frame).2 ::
        frameEmissions v cls fuel (processFrame v cls s1 frame).1
    else []

/-- The last `some` of a list of optional emissions, i.e. the value held by a
result slot that is overwritten on every `some` and untouched on `none`. -/
def lastEmission (r : Option (List Int)) (l : List (Option (List Int))) :
    Option (List Int) :=
  l.foldl (fun acc o => overwrite o acc) r

/-- A classifier that looks only at the first sample of a frame: speech iff
it is nonzero. Concrete scenarios below build their frames so that this
decides exactly the intended verdicts. -/
def headCls : List Int → Bool := fun f => f.headD 0 != 0

/-- 30 ms silence frame at 16 kHz (480 samples), classified non-speech by
`headCls`. -/
def silF : List Int := List.replicate 480 0

/-- 30 ms speech frame at 16 kHz, classified speech by `headCls`. -/
def spF : List Int := 1 :: List.replicate 479 0

/-- Shared tail for distinguishable 240-sample frames at 8 kHz. -/
def tl238 : List Int := List.replicate 238 0

/-- Distinguishable 8 kHz silence frames (non-speech under `headCls`). -/
def silA : List Int := 0 :: 7 :: tl238

/-- Second distinguishable silence frame. -/
def silB : List Int := 0 :: 8 :: tl238

/-- Third distinguishable silence frame. -/
def silC : List Int := 0 :: 9 :: tl238

/-- Distinguishable 8 kHz speech frames (speech under `headCls`). -/
def spA : List Int := 1 :: 7 :: tl238

/-- Second distinguishable speech frame. -/
def spB : List Int := 1 :: 8 :: tl238

/-- Third distinguishable speech frame. -/
def spC : List Int := 1 :: 9 :: tl238

/-- The parameters produced by `mkVAD 16000 2 300 90 60` (the C5 scenario:
10 silence frames to end a segment, 3 speech frames minimum, 2 padding
frames). -/
def v16 : VAD :=
  { sampleRate := 16000
    aggressiveness := 2
    frameSize := 480
    silenceFramesThreshold := 10
    minSpeechFrames := 3
    paddingFrames := 2 }

/-- The parameters produced by `mkVAD 8000 2 30 10 60`: threshold 1 frame,
minimum speech 0 frames, padding 2 frames. -/
def vShort : VAD :=
  { sampleRate := 8000
    aggressiveness := 2
    frameSize := 240
    silenceFramesThreshold := 1
    minSpeechFrames := 0
    paddingFrames := 2 }

/-- The parameters produced by `mkVAD 8000 2 30 30 60`: threshold 1 frame,
minimum speech 1 frame, padding 2 frames. -/
def vTwo : VAD :=
  { sampleRate := 8000
    aggressiveness := 2
    frameSize := 240
    silenceFramesThreshold := 1
    minSpeechFrames := 1
    paddingFrames := 2 }

/-- The parameters produced by `mkVAD 8000 2 30 60 0`: threshold 1 frame,
minimum speech 2 frames, no padding. -/
def vDouble : VAD :=
  { sampleRate := 8000
    aggressiveness := 2
    frameSize := 240
    silenceFramesThreshold := 1
    minSpeechFrames := 2
    paddingFrames := 0 }

/-- The parameters produced by `mkVAD 16000 2 (-10) (-10) (-10)`: negative
millisecond thresholds truncate toward zero to 0 frames, and construction
succeeds. -/
def vNeg : VAD :=
  { sampleRate := 16000
    aggressiveness := 2
    frameSize := 480
    silenceFramesThreshold := 0
    minSpeechFrames := 0
    paddingFrames := 0 }

end Paula

namespace Paula

/-- `processFrame` never touches the carry-over chunk buffer. -/
theorem processFrame_chunkBuffer (v : VAD) (cls : List Int → Bool)
    (s : VADState) (f : List Int) :
    (processFrame v cls s f).1.chunkBuffer = s.chunkBuffer := by
  unfold processFrame
  by_cases h : cls f
  · by_cases hs : s.isSpeaking <;> simp [h, hs]
  · by_cases hs : s.isSpeaking
    · by_cases hfire : v.silenceFramesThreshold ≤ (s.silenceFrames : Int) + 1
      · simp [h, hs, hfire]
      · simp [h, hs, hfire]
    · simp [h, hs]

/-- A speech frame while already speaking: append to the speech buffer, bump
the speech counter, clear the silence counter. -/
theorem processFrame_speech_continue (v : VAD) (cls : List Int → Bool)
    (s : VADState) (f : List Int) (h : cls f = true) (hs : s.isSpeaking = true) :
    processFrame v cls s f =
      ({ s with
          speechBuffer := s.speechBuffer ++ [f]
          speechFrames := s.speechFrames + 1
          silenceFrames := 0 }, none) := by
  simp [processFrame, h, hs]

/-- A speech frame while idle: transition to Speaking, replace the speech
buffer by the padding ring when the ring is nonempty, then append the frame
with a speech count of 1. -/
theorem processFrame_speech_start (v : VAD) (cls : List Int → Bool)
    (s : VADState) (f : List Int) (h : cls f = true) (hs : s.isSpeaking = false) :
    processFrame v cls s f =
      ({ s with
          isSpeaking := true
          speechBuffer :=
            (if s.preSpeechBuffer = [] then s.speechBuffer
             else s.preSpeechBuffer) ++ [f]
          speechFrames := 1
          silenceFrames := 0 }, none) := by
  simp [processFrame, h, hs]

/-- A silence frame while idle only updates the padding ring. -/
theorem processFrame_silence_idle (v : VAD) (cls : List Int → Bool)
    (s : VADState) (f : List Int) (h : cls f = false) (hs : s.isSpeaking = false) :
    processFrame v cls s f =
      ({ s with preSpeechBuffer := pushRing v s.preSpeechBuffer f }, none) := by
  simp [processFrame, h, hs]

/-- A silence frame while speaking, below the silence threshold: trailing
padding is buffered and the silence counter bumped, no emission. -/
theorem processFrame_silence_below (v : VAD) (cls : List Int → Bool)
    (s : VADState) (f : List Int) (h : cls f = false) (hs : s.isSpeaking = true)
    (hlt : (s.silenceFrames : Int) + 1 < v.silenceFramesThreshold) :
    processFrame v cls s f =
      ({ s with
          preSpeechBuffer := pushRing v s.preSpeechBuffer f
          speechBuffer := s.speechBuffer ++ [f]
          silenceFrames := s.silenceFrames + 1 }, none) := by
  simp [processFrame, h, hs, not_le.mpr hlt]

/-- A silence frame while speaking that reaches the silence threshold:
end-of-speech evaluation, full state reset apart from the padding ring, and
an emission exactly when the speech count made the minimum. -/
theorem processFrame_silence_fire (v : VAD) (cls : List Int → Bool)
    (s : VADState) (f : List Int) (h : cls f = false) (hs : s.isSpeaking = true)
    (hge : v.silenceFramesThreshold ≤ (s.silenceFrames : Int) + 1) :
    processFrame v cls s f =
      ({ s with
          preSpeechBuffer := pushRing v s.preSpeechBuffer f
          speechBuffer := []
          silenceFrames := 0
          speechFrames := 0
          isSpeaking := false },
        if v.minSpeechFrames ≤ (s.speechFrames : Int) then
          some (s.speechBuffer ++ [f]).flatten
        else none) := by
  simp [processFrame, h, hs, hge]

end Paula

namespace Paula

/-- When the chunk buffer holds less than one frame (or the frame size is
zero), the loop does nothing. -/
theorem runFrames_stop (v : VAD) (cls : List Int → Bool) (s : VADState)
    (r : Option (List Int)) (fuel : Nat)
    (h : ¬ (0 < v.frameSize ∧ v.frameSize ≤ s.chunkBuffer.length)) :
    runFrames v cls fuel s r = (s, r) := by
  cases fuel with
  | zero => rfl
  | succ n => simp [runFrames, h]

/-- One unfolding of the loop when a full frame is available. -/
theorem runFrames_step (v : VAD) (cls : List Int → Bool) (s : VADState)
    (r : Option (List Int)) (fuel : Nat)
    (h : 0 < v.frameSize ∧ v.frameSize ≤ s.chunkBuffer.length) :
    runFrames v cls (fuel + 1) s r =
      runFrames v cls fuel
        (processFrame v cls { s with chunkBuffer := s.chunkBuffer.drop v.frameSize }
          (s.chunkBuffer.take v.frameSize)).1
        (overwrite
          (processFrame v cls { s with chunkBuffer := s.chunkBuffer.drop v.frameSize }
            (s.chunkBuffer.take v.frameSize)).2 r) := by
  simp [runFrames, h]

/-- Any fuel at least the chunk-buffer length gives the loop's result:
each iteration consumes `frameSize ≥ 1` buffered samples. -/
theorem runFrames_fuel_irrelevant (v : VAD) (cls : List Int → Bool) :
    ∀ (fuel₁ fuel₂ : Nat) (s : VADState) (r : Option (List Int)),
      s.chunkBuffer.length ≤ fuel₁ → s.chunkBuffer.length ≤ fuel₂ →
      runFrames v cls fuel₁ s r = runFrames v cls fuel₂ s r := by
  intro fuel₁
  induction fuel₁ with
  | zero =>
    intro fuel₂ s r h1 h2
    have hlen : s.chunkBuffer.length = 0 := Nat.le_zero.mp h1
    have hstop : ¬ (0 < v.frameSize ∧ v.frameSize ≤ s.chunkBuffer.length) := by
      rw [hlen]; omega
    rw [runFrames_stop v cls s r 0 hstop, runFrames_stop v cls s r fuel₂ hstop]
  | succ n ih =>
    intro fuel₂ s r h1 h2
    by_cases hg : 0 < v.frameSize ∧ v.frameSize ≤ s.chunkBuffer.length
    · cases fuel₂ with
      | zero =>
        have hlen : s.chunkBuffer.length = 0 := Nat.le_zero.mp h2
        omega
      | succ m =>
        rw [runFrames_step v cls s r n hg, runFrames_step v cls s r m hg]
        set s1 : VADState :=
          { s with chunkBuffer := s.chunkBuffer.drop v.frameSize } with hs1
        have hlen2 :
            (processFrame v cls s1 (s.chunkBuffer.take v.frameSize)).1.chunkBuffer.length
              = s.chunkBuffer.length - v.frameSize := by
          rw [processFrame_chunkBuffer]
          simp [hs1]
        apply ih
        · rw [hlen2]; omega
        · rw [hlen2]; omega
    · rw [runFrames_stop v cls s r (n + 1) hg, runFrames_stop v cls s r fuel₂ hg]

/-- The loop's state and the emissions it produces do not depend on the
incoming result slot, and its final result slot is the last emission, falling
back to the incoming slot when no frame emitted. -/
theorem overwrite_none (r : Option (List Int)) : overwrite none r = r := rfl

/-- `overwrite` with an emission ignores the slot. -/
theorem overwrite_some (seg : List Int) (r : Option (List Int)) :
    overwrite (some seg) r = some seg := rfl

/-- A slot already holding an emission is unaffected by a later fallback. -/
theorem overwrite_overwrite_some (a : Option (List Int)) (x : List Int)
    (r : Option (List Int)) :
    overwrite (overwrite a (some x)) r = overwrite a (some x) := by
  cases a <;> rfl

/-- The loop's final state does not depend on the incoming result slot, and
its final result slot is the loop's own last emission, falling back to the
incoming slot when no frame emitted. -/
theorem runFrames_slot (v : VAD) (cls : List Int → Bool) :
    ∀ (fuel : Nat) (s : VADState) (r : Option (List Int)),
      runFrames v cls fuel s r =
        ((runFrames v cls fuel s none).1,
          overwrite (runFrames v cls fuel s none).2 r) := by
  intro fuel
  induction fuel with
  | zero => intro s r; rfl
  | succ n ih =>
    intro s r
    by_cases hg : 0 < v.frameSize ∧ v.frameSize ≤ s.chunkBuffer.length
    · rw [runFrames_step v cls s r n hg, runFrames_step v cls s none n hg]
      cases hopt : (processFrame v cls
          { s with chunkBuffer := s.chunkBuffer.drop v.frameSize }
          (s.chunkBuffer.take v.frameSize)).2 with
      | none =>
        rw [overwrite_none, overwrite_none]
        exact ih _ r
      | some seg =>
        rw [overwrite_some, overwrite_some, ih _ (some seg),
          overwrite_overwrite_some]
    · rw [runFrames_stop v cls s r (n + 1) hg,
        runFrames_stop v cls s none (n + 1) hg]
      rfl

end Paula

namespace Paula

/-- Replacing an empty chunk buffer by `[]` is the identity. -/
theorem setChunkBuffer_eta (s : VADState) (h : s.chunkBuffer = []) :
    ({ s with chunkBuffer := [] } : VADState) = s := by
  cases s
  simp_all

/-- `overwrite` into an empty slot is the emission itself. -/
theorem overwrite_none_right (o : Option (List Int)) : overwrite o none = o := by
  cases o <;> rfl

/-- An empty chunk on an aligned state does nothing. -/
theorem processChunk_nil (v : VAD) (cls : List Int → Bool) (s : VADState)
    (hcb : s.chunkBuffer = []) : processChunk v cls s [] = (s, none) := by
  have h0 : ({ s with chunkBuffer := s.chunkBuffer ++ [] } : VADState) = s := by
    cases s
    simp_all
  unfold processChunk
  rw [h0]
  dsimp only
  rw [hcb]
  rfl

/-- Feeding exactly one full frame to `process_chunk` on an aligned state is
exactly one `processFrame` step. -/
theorem processChunk_single (v : VAD) (cls : List Int → Bool) (s : VADState)
    (f : List Int) (hcb : s.chunkBuffer = []) (hf : f.length = v.frameSize)
    (hpos : 0 < v.frameSize) :
    processChunk v cls s f = processFrame v cls s f := by
  unfold processChunk
  rw [hcb]
  simp only [List.nil_append]
  have hfuel : f.length = (v.frameSize - 1) + 1 := by omega
  rw [hfuel, runFrames_step v cls _ none (v.frameSize - 1)
    (by simp [← hf]; omega)]
  simp only [← hf, List.take_length, List.drop_length]
  rw [setChunkBuffer_eta s hcb]
  have hstop : (processFrame v cls s f).1.chunkBuffer.length = 0 := by
    rw [processFrame_chunkBuffer, hcb]
    rfl
  rw [runFrames_stop v cls _ _ _ (by omega), overwrite_none_right]

/-- Chunk sequences compose. -/
theorem runChunks_append (v : VAD) (cls : List Int → Bool) :
    ∀ (as bs : List (List Int)) (s : VADState),
      runChunks v cls s (as ++ bs) =
        ((runChunks v cls (runChunks v cls s as).1 bs).1,
          (runChunks v cls s as).2 ++
            (runChunks v cls (runChunks v cls s as).1 bs).2) := by
  intro as
  induction as with
  | nil => intro bs s; rfl
  | cons c cs ih =>
    intro bs s
    simp only [List.cons_append, runChunks, List.append_eq]
    rw [ih]

end Paula

namespace Paula

/-- A run of speech-classified full frames while already speaking: every
frame is appended to the speech buffer and counted, nothing is emitted, and
the ring, the Speaking flag and the (zero) silence counter are untouched. -/
theorem runChunks_speech_run (v : VAD) (cls : List Int → Bool)
    (hpos : 0 < v.frameSize) :
    ∀ (l : List (List Int)),
      (∀ f ∈ l, cls f = true ∧ f.length = v.frameSize) →
      ∀ s : VADState, s.isSpeaking = true → s.chunkBuffer = [] →
        s.silenceFrames = 0 →
        (runChunks v cls s l).1.speechBuffer = s.speechBuffer ++ l ∧
        (runChunks v cls s l).1.speechFrames = s.speechFrames + l.length ∧
        (runChunks v cls s l).1.silenceFrames = 0 ∧
        (runChunks v cls s l).1.isSpeaking = true ∧
        (runChunks v cls s l).1.preSpeechBuffer = s.preSpeechBuffer ∧
        (runChunks v cls s l).1.chunkBuffer = [] ∧
        (runChunks v cls s l).2 = List.replicate l.length none := by
  intro l
  induction l with
  | nil =>
    intro _ s hsp hcb hsil
    simp [runChunks, hsp, hcb, hsil]
  | cons f t ih =>
    intro hl s hsp hcb hsil
    have hf := hl f (List.mem_cons_self f t)
    have hsingle := processChunk_single v cls s f hcb hf.2 hpos
    have hstep := processFrame_speech_continue v cls s f hf.1 hsp
    simp only [runChunks, hsingle, hstep]
    have ih' := ih (fun g hg => hl g (List.mem_cons_of_mem f hg))
      { s with
        speechBuffer := s.speechBuffer ++ [f]
        speechFrames := s.speechFrames + 1
        silenceFrames := 0 }
      hsp hcb rfl
    simp only at ih'
    obtain ⟨h1, h2, h3, h4, h5, h6, h7⟩ := ih'
    refine ⟨?_, ?_, h3, h4, h5, h6, ?_⟩
    · rw [h1]
      simp
    · rw [h2]
      simp [Nat.add_assoc, Nat.add_comm 1 t.length]
    · rw [h7]
      simp [List.replicate_succ]

/-- A run of silence-classified full frames while speaking, short enough to
stay below the silence threshold throughout: frames are buffered as trailing
padding, the silence counter advances, nothing is emitted, and the speech
counter and Speaking flag are untouched. -/
theorem runChunks_silence_below (v : VAD) (cls : List Int → Bool)
    (hpos : 0 < v.frameSize) :
    ∀ (l : List (List Int)),
      (∀ f ∈ l, cls f = false ∧ f.length = v.frameSize) →
      ∀ s : VADState, s.isSpeaking = true → s.chunkBuffer = [] →
        ((s.silenceFrames + l.length : Nat) : Int) < v.silenceFramesThreshold →
        (runChunks v cls s l).1.speechBuffer = s.speechBuffer ++ l ∧
        (runChunks v cls s l).1.speechFrames = s.speechFrames ∧
        (runChunks v cls s l).1.silenceFrames = s.silenceFrames + l.length ∧
        (runChunks v cls s l).1.isSpeaking = true ∧
        (runChunks v cls s l).1.chunkBuffer = [] ∧
        (runChunks v cls s l).2 = List.replicate l.length none := by
  intro l
  induction l with
  | nil =>
    intro _ s hsp hcb _
    simp [runChunks, hsp, hcb]
  | cons f t ih =>
    intro hl s hsp hcb hbound
    have hf := hl f (List.mem_cons_self f t)
    have hsingle := processChunk_single v cls s f hcb hf.2 hpos
    simp only [List.length_cons] at hbound
    push_cast at hbound
    have hlt : (s.silenceFrames : Int) + 1 < v.silenceFramesThreshold := by
      omega
    have hstep := processFrame_silence_below v cls s f hf.1 hsp hlt
    simp only [runChunks, hsingle, hstep]
    have ih' := ih (fun g hg => hl g (List.mem_cons_of_mem f hg))
      { s with
        preSpeechBuffer := pushRing v s.preSpeechBuffer f
        speechBuffer := s.speechBuffer ++ [f]
        silenceFrames := s.silenceFrames + 1 }
      hsp hcb
      (by
        simp only
        push_cast
        omega)
    simp only at ih'
    obtain ⟨h1, h2, h3, h4, h5, h6⟩ := ih'
    refine ⟨?_, h2, ?_, h4, h5, ?_⟩
    · rw [h1]
      simp
    · rw [h3]
      simp [List.length_cons]
      omega
    · rw [h6]
      simp [List.replicate_succ]

end Paula

namespace Paula

/-- Under an all-silence classifier a non-speaking state stays non-speaking
through the frame loop and the loop emits nothing. -/
theorem runFrames_all_silence (v : VAD) (cls : List Int → Bool)
    (hcls : ∀ f, cls f = false) :
    ∀ (fuel : Nat) (s : VADState) (r : Option (List Int)),
      s.isSpeaking = false →
      (runFrames v cls fuel s r).1.isSpeaking = false ∧
      (runFrames v cls fuel s r).2 = r := by
  intro fuel
  induction fuel with
  | zero => intro s r hsp; exact ⟨hsp, rfl⟩
  | succ n ih =>
    intro s r hsp
    by_cases hg : 0 < v.frameSize ∧ v.frameSize ≤ s.chunkBuffer.length
    · rw [runFrames_step v cls s r n hg]
      have hstep := processFrame_silence_idle v cls
        { s with chunkBuffer := s.chunkBuffer.drop v.frameSize }
        (s.chunkBuffer.take v.frameSize)
        (hcls _) hsp
      rw [hstep]
      exact ih _ r hsp
    · rw [runFrames_stop v cls s r (n + 1) hg]
      exact ⟨hsp, rfl⟩

/-- Under an all-silence classifier, `process_chunk` from a non-speaking
state returns no segment and leaves the detector non-speaking. -/
theorem processChunk_all_silence (v : VAD) (cls : List Int → Bool)
    (hcls : ∀ f, cls f = false) (s : VADState) (c : List Int)
    (hsp : s.isSpeaking = false) :
    (processChunk v cls s c).1.isSpeaking = false ∧
    (processChunk v cls s c).2 = none := by
  unfold processChunk
  exact runFrames_all_silence v cls hcls _ _ none hsp

/-- The silence-counter invariant is preserved by one classified frame:
if a non-speaking state has a zero silence counter, so does the state after
`processFrame` whenever it is non-speaking. -/
theorem processFrame_silence_inv (v : VAD) (cls : List Int → Bool)
    (s : VADState) (f : List Int)
    (hinv : s.isSpeaking = false → s.silenceFrames = 0) :
    (processFrame v cls s f).1.isSpeaking = false →
    (processFrame v cls s f).1.silenceFrames = 0 := by
  by_cases h : cls f
  · by_cases hs : s.isSpeaking
    · rw [processFrame_speech_continue v cls s f h hs]
      intro hfalse
      simp at hfalse
      simp [hs] at hfalse
    · rw [processFrame_speech_start v cls s f h (by simpa using hs)]
      intro hfalse
      simp at hfalse
  · have h' : cls f = false := by simpa using h
    by_cases hs : s.isSpeaking
    · by_cases hfire :
        v.silenceFramesThreshold ≤ (s.silenceFrames : Int) + 1
      · rw [processFrame_silence_fire v cls s f h' hs hfire]
        intro _
        rfl
      · rw [processFrame_silence_below v cls s f h' hs (by omega)]
        intro hfalse
        simp [hs] at hfalse
    · have hs' : s.isSpeaking = false := by simpa using hs
      rw [processFrame_silence_idle v cls s f h' hs']
      intro _
      simpa using hinv hs'

/-- The silence-counter invariant is preserved by the frame loop. -/
theorem runFrames_silence_inv (v : VAD) (cls : List Int → Bool) :
    ∀ (fuel : Nat) (s : VADState) (r : Option (List Int)),
      (s.isSpeaking = false → s.silenceFrames = 0) →
      (runFrames v cls fuel s r).1.isSpeaking = false →
      (runFrames v cls fuel s r).1.silenceFrames = 0 := by
  intro fuel
  induction fuel with
  | zero => intro s r hinv; exact hinv
  | succ n ih =>
    intro s r hinv
    by_cases hg : 0 < v.frameSize ∧ v.frameSize ≤ s.chunkBuffer.length
    · rw [runFrames_step v cls s r n hg]
      exact ih _ _ (processFrame_silence_inv v cls _ _ hinv)
    · rw [runFrames_stop v cls s r (n + 1) hg]
      exact hinv
  
/-- The silence-counter invariant is preserved by every public operation. -/
theorem applyOp_silence_inv (v : VAD) (cls : List Int → Bool) (s : VADState)
    (op : VADOp) (hinv : s.isSpeaking = false → s.silenceFrames = 0) :
    (applyOp v cls s op).isSpeaking = false →
    (applyOp v cls s op).silenceFrames = 0 := by
  cases op with
  | chunk c => exact runFrames_silence_inv v cls _ _ none hinv
  | reset => intro _; rfl
  | flush =>
    simp only [applyOp, getBufferedSpeech]
    by_cases h : s.speechBuffer ≠ [] ∧ v.minSpeechFrames ≤ (s.speechFrames : Int)
    · simp only [if_pos h]
      intro _
      rfl
    · simp only [if_neg h]
      exact hinv

end Paula

namespace Paula

/-- One ring push preserves the capacity bound. -/
theorem pushRing_length (v : VAD) (ring : List (List Int)) (f : List Int)
    (h : (ring.length : Int) ≤ v.paddingFrames) :
    ((pushRing v ring f).length : Int) ≤ v.paddingFrames := by
  unfold pushRing
  dsimp only
  split
  · simp only [List.length_tail, List.length_append, List.length_singleton,
      Nat.add_sub_cancel]
    exact h
  · rename_i h2
    simp only [not_lt] at h2
    exact h2

/-- When a push would overflow the ring, the oldest frame is evicted. -/
theorem pushRing_evict (v : VAD) (ring : List (List Int)) (f : List Int)
    (h : v.paddingFrames < (ring.length : Int) + 1) :
    pushRing v ring f = (ring ++ [f]).tail := by
  unfold pushRing
  dsimp only
  rw [if_pos]
  simp only [List.length_append, List.length_singleton]
  push_cast
  omega

/-- `processFrame` preserves the ring-capacity bound. -/
theorem processFrame_ring_bound (v : VAD) (cls : List Int → Bool)
    (s : VADState) (f : List Int)
    (h : (s.preSpeechBuffer.length : Int) ≤ v.paddingFrames) :
    ((processFrame v cls s f).1.preSpeechBuffer.length : Int) ≤
      v.paddingFrames := by
  by_cases hc : cls f
  · by_cases hs : s.isSpeaking
    · rw [processFrame_speech_continue v cls s f hc hs]
      exact h
    · rw [processFrame_speech_start v cls s f hc (by simpa using hs)]
      exact h
  · have hc' : cls f = false := by simpa using hc
    by_cases hs : s.isSpeaking
    · by_cases hfire : v.silenceFramesThreshold ≤ (s.silenceFrames : Int) + 1
      · rw [processFrame_silence_fire v cls s f hc' hs hfire]
        exact pushRing_length v _ f h
      · rw [processFrame_silence_below v cls s f hc' hs (by omega)]
        exact pushRing_length v _ f h
    · rw [processFrame_silence_idle v cls s f hc' (by simpa using hs)]
      exact pushRing_length v _ f h

/-- The frame loop preserves the ring-capacity bound. -/
theorem runFrames_ring_bound (v : VAD) (cls : List Int → Bool) :
    ∀ (fuel : Nat) (s : VADState) (r : Option (List Int)),
      (s.preSpeechBuffer.length : Int) ≤ v.paddingFrames →
      ((runFrames v cls fuel s r).1.preSpeechBuffer.length : Int) ≤
        v.paddingFrames := by
  intro fuel
  induction fuel with
  | zero => intro s r h; exact h
  | succ n ih =>
    intro s r h
    by_cases hg : 0 < v.frameSize ∧ v.frameSize ≤ s.chunkBuffer.length
    · rw [runFrames_step v cls s r n hg]
      exact ih _ _ (processFrame_ring_bound v cls _ _ h)
    · rw [runFrames_stop v cls s r (n + 1) hg]
      exact h

/-- Every public operation preserves the ring-capacity bound (reset and
flush need a non-negative capacity, since they can only shrink the ring to
empty). -/
theorem applyOp_ring_bound (v : VAD) (cls : List Int → Bool) (s : VADState)
    (op : VADOp) (hcap : 0 ≤ v.paddingFrames)
    (h : (s.preSpeechBuffer.length : Int) ≤ v.paddingFrames) :
    ((applyOp v cls s op).preSpeechBuffer.length : Int) ≤ v.paddingFrames := by
  cases op with
  | chunk c => exact runFrames_ring_bound v cls _ _ none h
  | reset => simpa using hcap
  | flush =>
    simp only [applyOp, getBufferedSpeech]
    by_cases hb : s.speechBuffer ≠ [] ∧ v.minSpeechFrames ≤ (s.speechFrames : Int)
    · simp only [if_pos hb]
      simpa using hcap
    · simp only [if_neg hb]
      exact h

end Paula

namespace Paula

/-- On any non-speech frame, if the ring is at (or above) capacity, the push
evicts the oldest frame. -/
theorem processFrame_evicts_oldest (v : VAD) (cls : List Int → Bool)
    (s : VADState) (f : List Int) (hc : cls f = false)
    (hfull : v.paddingFrames < (s.preSpeechBuffer.length : Int) + 1) :
    (processFrame v cls s f).1.preSpeechBuffer =
      (s.preSpeechBuffer ++ [f]).tail := by
  have hpush := pushRing_evict v s.preSpeechBuffer f hfull
  by_cases hs : s.isSpeaking
  · by_cases hfire : v.silenceFramesThreshold ≤ (s.silenceFrames : Int) + 1
    · rw [processFrame_silence_fire v cls s f hc hs hfire]
      exact hpush
    · rw [processFrame_silence_below v cls s f hc hs (by omega)]
      exact hpush
  · rw [processFrame_silence_idle v cls s f hc (by simpa using hs)]
    exact hpush

/-- The loop's result slot holds the last segment emitted by its frames:
`runFrames` refines `lastEmission` over `frameEmissions`. -/
theorem runFrames_lastEmission (v : VAD) (cls : List Int → Bool) :
    ∀ (fuel : Nat) (s : VADState) (r : Option (List Int)),
      (runFrames v cls fuel s r).2 =
        lastEmission r (frameEmissions v cls fuel s) := by
  intro fuel
  induction fuel with
  | zero => intro s r; rfl
  | succ n ih =>
    intro s r
    by_cases hg : 0 < v.frameSize ∧ v.frameSize ≤ s.chunkBuffer.length
    · rw [runFrames_step v cls s r n hg]
      rw [ih]
      simp only [frameEmissions, if_pos hg, lastEmission, List.foldl_cons]
    · rw [runFrames_stop v cls s r (n + 1) hg]
      simp only [frameEmissions, if_neg hg]
      rfl

/-- `overwrite` with the last element of a nonempty list ignores the
fallback slot. -/
theorem overwrite_getLast?_cons :
    ∀ (l : List (List Int)) (x : List Int) (r : Option (List Int)),
      overwrite ((x :: l).getLast?) r = overwrite l.getLast? (some x) := by
  intro l
  induction l with
  | nil => intro x r; rfl
  | cons a b ih =>
    intro x r
    rw [List.getLast?_cons_cons, ih a r, ih a (some x)]

/-- `lastEmission` is the last actual emission of the trace, falling back to
the initial slot when the trace emitted nothing. -/
theorem lastEmission_eq_getLast? :
    ∀ (l : List (Option (List Int))) (r : Option (List Int)),
      lastEmission r l = overwrite (l.filterMap id).getLast? r := by
  intro l
  induction l with
  | nil => intro r; rfl
  | cons o t ih =>
    intro r
    cases o with
    | none =>
      have h1 : lastEmission r (none :: t) = lastEmission r t := rfl
      have h2 : (none :: t).filterMap id = t.filterMap id := by simp
      rw [h1, h2]
      exact ih r
    | some x =>
      have h1 : lastEmission r (some x :: t) = lastEmission (some x) t := rfl
      have h2 : (some x :: t).filterMap id = x :: t.filterMap id := by simp
      rw [h1, h2, ih (some x), overwrite_getLast?_cons]

/-- Flattening a list of equal-length frames multiplies the count by the
frame length. -/
theorem flatten_length_uniform (n : Nat) :
    ∀ (l : List (List Int)), (∀ f ∈ l, f.length = n) →
      l.flatten.length = l.length * n := by
  intro l
  induction l with
  | nil => intro _; simp
  | cons f t ih =>
    intro hl
    simp only [List.flatten_cons, List.length_append, List.length_cons,
      hl f (List.mem_cons_self f t),
      ih (fun g hg => hl g (List.mem_cons_of_mem f hg))]
    ring

/-- A trace of `n` non-emissions contains no segment. -/
theorem filterMap_id_replicate_none (n : Nat) :
    (List.replicate n (none : Option (List Int))).filterMap id = [] := by
  induction n with
  | zero => rfl
  | succ m ih => simp [List.replicate_succ, ih]

end Paula

namespace Paula

/-- Frame-length facts for the concrete frames. -/
theorem silF_length : silF.length = 480 := by
  unfold silF
  rw [List.length_replicate]

/-- Length of the concrete speech frame. -/
theorem spF_length : spF.length = 480 := by
  unfold spF
  rw [List.length_cons, List.length_replicate]

/-- Lengths of the distinguishable 8 kHz frames. -/
theorem frames240_length : silA.length = 240 ∧ silB.length = 240 ∧
    silC.length = 240 ∧ spA.length = 240 ∧ spB.length = 240 ∧
    spC.length = 240 := by
  unfold silA silB silC spA spB spC tl238
  refine ⟨?_, ?_, ?_, ?_, ?_, ?_⟩ <;>
    rw [List.length_cons, List.length_cons, List.length_replicate]

/-- `headCls` verdicts for the concrete frames. -/
theorem headCls_frames : headCls silF = false ∧ headCls spF = true ∧
    headCls silA = false ∧ headCls silB = false ∧ headCls silC = false ∧
    headCls spA = true ∧ headCls spB = true ∧ headCls spC = true := by
  refine ⟨rfl, rfl, rfl, rfl, rfl, rfl, rfl, rfl⟩

/-- The constructions used by the concrete scenarios. -/
theorem mkVAD_16k : mkVAD 16000 2 300 90 60 = Except.ok (v16, vadInit) := rfl

/-- Construction for the short-minimum configuration. -/
theorem mkVAD_vShort : mkVAD 8000 2 30 10 60 = Except.ok (vShort, vadInit) := rfl

/-- Construction for the two-segment configuration. -/
theorem mkVAD_vTwo : mkVAD 8000 2 30 30 60 = Except.ok (vTwo, vadInit) := rfl

/-- Construction for the double-evaluation configuration. -/
theorem mkVAD_vDouble : mkVAD 8000 2 30 60 0 = Except.ok (vDouble, vadInit) := rfl

end Paula

namespace Paula

/-- Degenerate conditional used at the Idle→Speaking transition: with an
empty speech buffer, both branches give the ring itself. -/
theorem ite_nil_ring (l : List (List Int)) :
    (if l = [] then ([] : List (List Int)) else l) = l := by
  by_cases h : l = [] <;> simp [h]

/-- From Idle with zero counters and empty buffers (arbitrary padding ring
`r0`), a nonempty run of speech frames followed by a silence run strictly
below the threshold: everything is buffered behind the ring contents, the
counters track the run lengths, and nothing is emitted. -/
theorem runChunks_utterance_prefix (v : VAD) (cls : List Int → Bool)
    (hpos : 0 < v.frameSize) (r0 sp silInit : List (List Int))
    (hsp : sp ≠ [])
    (hspAll : ∀ f ∈ sp, cls f = true ∧ f.length = v.frameSize)
    (hsilAll : ∀ f ∈ silInit, cls f = false ∧ f.length = v.frameSize)
    (hbound : (silInit.length : Int) < v.silenceFramesThreshold) :
    (runChunks v cls
        { speechBuffer := [], preSpeechBuffer := r0, silenceFrames := 0,
          speechFrames := 0, isSpeaking := false, chunkBuffer := [] }
        (sp ++ silInit)).1.speechBuffer = r0 ++ sp ++ silInit ∧
    (runChunks v cls
        { speechBuffer := [], preSpeechBuffer := r0, silenceFrames := 0,
          speechFrames := 0, isSpeaking := false, chunkBuffer := [] }
        (sp ++ silInit)).1.speechFrames = sp.length ∧
    (runChunks v cls
        { speechBuffer := [], preSpeechBuffer := r0, silenceFrames := 0,
          speechFrames := 0, isSpeaking := false, chunkBuffer := [] }
        (sp ++ silInit)).1.silenceFrames = silInit.length ∧
    (runChunks v cls
        { speechBuffer := [], preSpeechBuffer := r0, silenceFrames := 0,
          speechFrames := 0, isSpeaking := false, chunkBuffer := [] }
        (sp ++ silInit)).1.isSpeaking = true ∧
    (runChunks v cls
        { speechBuffer := [], preSpeechBuffer := r0, silenceFrames := 0,
          speechFrames := 0, isSpeaking := false, chunkBuffer := [] }
        (sp ++ silInit)).1.chunkBuffer = [] ∧
    (runChunks v cls
        { speechBuffer := [], preSpeechBuffer := r0, silenceFrames := 0,
          speechFrames := 0, isSpeaking := false, chunkBuffer := [] }
        (sp ++ silInit)).2 =
      List.replicate (sp.length + silInit.length) none := by
  obtain ⟨f, spt, rfl⟩ := List.exists_cons_of_ne_nil hsp
  set s0 : VADState :=
    { speechBuffer := [], preSpeechBuffer := r0, silenceFrames := 0,
      speechFrames := 0, isSpeaking := false, chunkBuffer := [] } with hs0
  have hf := hspAll f (List.mem_cons_self f spt)
  have hsingle := processChunk_single v cls s0 f rfl hf.2 hpos
  have hstart := processFrame_speech_start v cls s0 f hf.1 rfl
  have hbuf0 : (if s0.preSpeechBuffer = [] then s0.speechBuffer
      else s0.preSpeechBuffer) = r0 := by
    simp only [hs0]
    exact ite_nil_ring r0
  set s1 : VADState :=
    { speechBuffer := r0 ++ [f], preSpeechBuffer := r0, silenceFrames := 0,
      speechFrames := 1, isSpeaking := true, chunkBuffer := [] } with hs1
  have hstep1 : processChunk v cls s0 f = (s1, none) := by
    rw [hsingle, hstart]
    simp only [hbuf0, hs0, hs1]
  have hsprun := runChunks_speech_run v cls hpos spt
    (fun g hg => hspAll g (List.mem_cons_of_mem f hg)) s1 rfl rfl rfl
  obtain ⟨p1, p2, p3, p4, p5, p6, p7⟩ := hsprun
  have hsilrun := runChunks_silence_below v cls hpos silInit hsilAll
    (runChunks v cls s1 spt).1 p4 p6
    (by
      rw [p3]
      push_cast
      omega)
  obtain ⟨q1, q2, q3, q4, q5, q6⟩ := hsilrun
  have hsplit : f :: spt ++ silInit = [f] ++ (spt ++ silInit) := by simp
  rw [hsplit, runChunks_append, runChunks_append]
  have hchunk1 : runChunks v cls s0 [f] = (s1, [none]) := by
    simp only [runChunks, hstep1]
  rw [hchunk1]
  simp only
  refine ⟨?_, ?_, ?_, q4, q5, ?_⟩
  · rw [q1, p1]
    simp only [hs1]
    simp [List.append_assoc]
  · rw [q2, p2]
    simp only [hs1, List.length_cons]
    omega
  · rw [q3, p3]
    simp [hs1]
  · rw [q6, p7]
    simp only [List.length_cons]
    rw [List.replicate_add, List.replicate_succ]
    simp

end Paula

namespace Paula

/-- From Idle with zero counters and empty buffers (arbitrary ring `r0`), a
nonempty speech run meeting the minimum followed by exactly a threshold-long
silence run emits exactly one segment — the ring contents, the speech run and
the whole trailing silence — and leaves the accumulator Idle with cleared
buffers and counters. -/
theorem runChunks_full_utterance (v : VAD) (cls : List Int → Bool)
    (hpos : 0 < v.frameSize) (r0 sp sil : List (List Int))
    (hsp : sp ≠ []) (hsil : sil ≠ [])
    (hspAll : ∀ f ∈ sp, cls f = true ∧ f.length = v.frameSize)
    (hsilAll : ∀ f ∈ sil, cls f = false ∧ f.length = v.frameSize)
    (hthr : (sil.length : Int) = v.silenceFramesThreshold)
    (hmin : v.minSpeechFrames ≤ (sp.length : Int)) :
    (runChunks v cls
        { speechBuffer := [], preSpeechBuffer := r0, silenceFrames := 0,
          speechFrames := 0, isSpeaking := false, chunkBuffer := [] }
        (sp ++ sil)).2.filterMap id = [(r0 ++ sp ++ sil).flatten] ∧
    (runChunks v cls
        { speechBuffer := [], preSpeechBuffer := r0, silenceFrames := 0,
          speechFrames := 0, isSpeaking := false, chunkBuffer := [] }
        (sp ++ sil)).1.isSpeaking = false ∧
    (runChunks v cls
        { speechBuffer := [], preSpeechBuffer := r0, silenceFrames := 0,
          speechFrames := 0, isSpeaking := false, chunkBuffer := [] }
        (sp ++ sil)).1.speechFrames = 0 ∧
    (runChunks v cls
        { speechBuffer := [], preSpeechBuffer := r0, silenceFrames := 0,
          speechFrames := 0, isSpeaking := false, chunkBuffer := [] }
        (sp ++ sil)).1.silenceFrames = 0 ∧
    (runChunks v cls
        { speechBuffer := [], preSpeechBuffer := r0, silenceFrames := 0,
          speechFrames := 0, isSpeaking := false, chunkBuffer := [] }
        (sp ++ sil)).1.speechBuffer = [] := by
  rcases List.eq_nil_or_concat sil with hnil | ⟨silInit, lastf, rfl⟩
  · exact absurd hnil hsil
  simp only [List.concat_eq_append] at hsil hsilAll hthr ⊢
  have hlast_mem : lastf ∈ silInit ++ [lastf] := by simp
  have hlastf := hsilAll lastf hlast_mem
  have hlen : ((silInit ++ [lastf]).length : Int) = (silInit.length : Int) + 1 := by
    push_cast [List.length_append, List.length_singleton]
    ring
  have hbound : (silInit.length : Int) < v.silenceFramesThreshold := by
    rw [← hthr, hlen]
    omega
  have hpre := runChunks_utterance_prefix v cls hpos r0 sp silInit hsp hspAll
    (fun g hg => hsilAll g (List.mem_append_left _ hg)) hbound
  obtain ⟨b1, b2, b3, b4, b5, b6⟩ := hpre
  have hassoc : sp ++ (silInit ++ [lastf]) = (sp ++ silInit) ++ [lastf] := by
    simp [List.append_assoc]
  rw [hassoc, runChunks_append]
  set sPre := (runChunks v cls
    { speechBuffer := [], preSpeechBuffer := r0, silenceFrames := 0,
      speechFrames := 0, isSpeaking := false, chunkBuffer := [] }
    (sp ++ silInit)).1 with hsPre
  have hsingle := processChunk_single v cls sPre lastf b5 hlastf.2 hpos
  have hfire := processFrame_silence_fire v cls sPre lastf hlastf.1 b4
    (by rw [b3, ← hthr, hlen])
  have hemit : (if v.minSpeechFrames ≤ (sPre.speechFrames : Int) then
      some (sPre.speechBuffer ++ [lastf]).flatten else none) =
      some ((r0 ++ sp ++ (silInit ++ [lastf])).flatten) := by
    rw [if_pos (by rw [b2]; exact hmin), b1]
    simp [List.append_assoc]
  have hstep : runChunks v cls sPre [lastf] =
      (({ sPre with
          preSpeechBuffer := pushRing v sPre.preSpeechBuffer lastf
          speechBuffer := []
          silenceFrames := 0
          speechFrames := 0
          isSpeaking := false } : VADState),
        [some ((r0 ++ sp ++ (silInit ++ [lastf])).flatten)]) := by
    rw [runChunks, hsingle, hfire]
    rw [runChunks]
    rw [hemit]
  rw [hstep]
  simp only [b6]
  refine ⟨?_, trivial, trivial, trivial, trivial⟩
  rw [List.filterMap_append, filterMap_id_replicate_none]
  simp

/-- Same shape as `runChunks_full_utterance`, but with a speech run below the
minimum: the end-of-speech evaluation fires, discards the buffer, and emits
nothing, and the accumulator still returns to Idle with cleared state. -/
theorem runChunks_short_utterance (v : VAD) (cls : List Int → Bool)
    (hpos : 0 < v.frameSize) (r0 sp sil : List (List Int))
    (hsp : sp ≠ []) (hsil : sil ≠ [])
    (hspAll : ∀ f ∈ sp, cls f = true ∧ f.length = v.frameSize)
    (hsilAll : ∀ f ∈ sil, cls f = false ∧ f.length = v.frameSize)
    (hthr : (sil.length : Int) = v.silenceFramesThreshold)
    (hmin : ¬ v.minSpeechFrames ≤ (sp.length : Int)) :
    (runChunks v cls
        { speechBuffer := [], preSpeechBuffer := r0, silenceFrames := 0,
          speechFrames := 0, isSpeaking := false, chunkBuffer := [] }
        (sp ++ sil)).2.filterMap id = [] ∧
    (runChunks v cls
        { speechBuffer := [], preSpeechBuffer := r0, silenceFrames := 0,
          speechFrames := 0, isSpeaking := false, chunkBuffer := [] }
        (sp ++ sil)).1.isSpeaking = false ∧
    (runChunks v cls
        { speechBuffer := [], preSpeechBuffer := r0, silenceFrames := 0,
          speechFrames := 0, isSpeaking := false, chunkBuffer := [] }
        (sp ++ sil)).1.speechBuffer = [] := by
  rcases List.eq_nil_or_concat sil with hnil | ⟨silInit, lastf, rfl⟩
  · exact absurd hnil hsil
  simp only [List.concat_eq_append] at hsil hsilAll hthr ⊢
  have hlast_mem : lastf ∈ silInit ++ [lastf] := by simp
  have hlastf := hsilAll lastf hlast_mem
  have hlen : ((silInit ++ [lastf]).length : Int) = (silInit.length : Int) + 1 := by
    push_cast [List.length_append, List.length_singleton]
    ring
  have hbound : (silInit.length : Int) < v.silenceFramesThreshold := by
    rw [← hthr, hlen]
    omega
  have hpre := runChunks_utterance_prefix v cls hpos r0 sp silInit hsp hspAll
    (fun g hg => hsilAll g (List.mem_append_left _ hg)) hbound
  obtain ⟨b1, b2, b3, b4, b5, b6⟩ := hpre
  have hassoc : sp ++ (silInit ++ [lastf]) = (sp ++ silInit) ++ [lastf] := by
    simp [List.append_assoc]
  rw [hassoc, runChunks_append]
  set sPre := (runChunks v cls
    { speechBuffer := [], preSpeechBuffer := r0, silenceFrames := 0,
      speechFrames := 0, isSpeaking := false, chunkBuffer := [] }
    (sp ++ silInit)).1 with hsPre
  have hsingle := processChunk_single v cls sPre lastf b5 hlastf.2 hpos
  have hfire := processFrame_silence_fire v cls sPre lastf hlastf.1 b4
    (by rw [b3, ← hthr, hlen])
  have hemit : (if v.minSpeechFrames ≤ (sPre.speechFrames : Int) then
      some (sPre.speechBuffer ++ [lastf]).flatten else none) = none := by
    rw [if_neg (by rw [b2]; exact hmin)]
  have hstep : runChunks v cls sPre [lastf] =
      (({ sPre with
          preSpeechBuffer := pushRing v sPre.preSpeechBuffer lastf
          speechBuffer := []
          silenceFrames := 0
          speechFrames := 0
          isSpeaking := false } : VADState), [none]) := by
    rw [runChunks, hsingle, hfire]
    rw [runChunks]
    rw [hemit]
  rw [hstep]
  simp only [b6]
  refine ⟨?_, trivial, trivial⟩
  rw [List.filterMap_append, filterMap_id_replicate_none]
  simp

end Paula

namespace Paula

/-- The silence-counter invariant holds along any operation sequence. -/
theorem runOps_silence_inv (v : VAD) (cls : List Int → Bool) :
    ∀ (ops : List VADOp) (s : VADState),
      (s.isSpeaking = false → s.silenceFrames = 0) →
      ((runOps v cls s ops).isSpeaking = false →
        (runOps v cls s ops).silenceFrames = 0) := by
  intro ops
  induction ops with
  | nil => intro s h; exact h
  | cons op t ih => intro s h; exact ih _ (applyOp_silence_inv v cls s op h)

/-- The ring-capacity bound holds along any operation sequence. -/
theorem runOps_ring_bound (v : VAD) (cls : List Int → Bool)
    (hcap : 0 ≤ v.paddingFrames) :
    ∀ (ops : List VADOp) (s : VADState),
      (s.preSpeechBuffer.length : Int) ≤ v.paddingFrames →
      ((runOps v cls s ops).preSpeechBuffer.length : Int) ≤ v.paddingFrames := by
  intro ops
  induction ops with
  | nil => intro s h; exact h
  | cons op t ih => intro s h; exact ih _ (applyOp_ring_bound v cls s op hcap h)

/-- All-silence chunk sequences leave the detector Idle and emit nothing. -/
theorem runChunks_all_silence (v : VAD) (cls : List Int → Bool)
    (hcls : ∀ f, cls f = false) :
    ∀ (cs : List (List Int)) (s : VADState), s.isSpeaking = false →
      (runChunks v cls s cs).2 = List.replicate cs.length none ∧
      (runChunks v cls s cs).1.isSpeaking = false := by
  intro cs
  induction cs with
  | nil => intro s h; exact ⟨rfl, h⟩
  | cons c t ih =>
    intro s h
    have hc := processChunk_all_silence v cls hcls s c h
    have iht := ih (processChunk v cls s c).1 hc.1
    simp only [runChunks]
    refine ⟨?_, iht.2⟩
    rw [hc.2, iht.1, List.length_cons, List.replicate_succ]

/-- C9: for every input stream in which every frame is classified as
non-speech, no matter its length or how it is split into chunks,
`process_chunk` never returns a segment. -/
theorem C9_all_silence_no_segments (v : VAD) (cls : List Int → Bool)
    (hcls : ∀ f, cls f = false) (cs : List (List Int)) :
    (runChunks v cls vadInit cs).2 = List.replicate cs.length none :=
  (runChunks_all_silence v cls hcls cs vadInit rfl).1

/-- Witness for C9 at a concrete all-silence classifier and chunk split. -/
theorem C9_all_silence_no_segments_witness :
    (runChunks v16 (fun _ => false) vadInit [[0, 1], [5], []]).2 =
      List.replicate 3 none :=
  C9_all_silence_no_segments v16 (fun _ => false) (fun _ => rfl) [[0, 1], [5], []]

/-- C10 (implicit invariant): whenever the accumulator is not Speaking, the
silence-frame counter is zero; this holds in the initial state and is
preserved by every `process_chunk`, `reset` and `get_buffered_speech` call. -/
theorem C10_silence_counter_invariant (v : VAD) (cls : List Int → Bool)
    (ops : List VADOp)
    (h : (runOps v cls vadInit ops).isSpeaking = false) :
    (runOps v cls vadInit ops).silenceFrames = 0 :=
  runOps_silence_inv v cls ops vadInit (fun _ => rfl) h

/-- Witness for C10 at a concrete operation sequence. -/
theorem C10_silence_counter_invariant_witness :
    (runOps v16 headCls vadInit [VADOp.reset, VADOp.flush]).silenceFrames = 0 :=
  C10_silence_counter_invariant v16 headCls [VADOp.reset, VADOp.flush] rfl

/-- C7: the padding ring never exceeds its configured capacity along any
operation sequence from the initial state, and a push into a full ring
evicts the oldest frame. -/
theorem C7_ring_capacity (v : VAD) (cls : List Int → Bool)
    (hcap : 0 ≤ v.paddingFrames) :
    (∀ ops : List VADOp,
      ((runOps v cls vadInit ops).preSpeechBuffer.length : Int) ≤
        v.paddingFrames) ∧
    (∀ (s : VADState) (f : List Int), cls f = false →
      v.paddingFrames < (s.preSpeechBuffer.length : Int) + 1 →
      (processFrame v cls s f).1.preSpeechBuffer =
        (s.preSpeechBuffer ++ [f]).tail) := by
  constructor
  · intro ops
    exact runOps_ring_bound v cls hcap ops vadInit (by simpa using hcap)
  · intro s f hc hfull
    exact processFrame_evicts_oldest v cls s f hc hfull

/-- Witness for C7: the bound after a concrete operation sequence, and a
concrete eviction at a full ring. -/
theorem C7_ring_capacity_witness :
    ((runOps v16 headCls vadInit [VADOp.chunk [], VADOp.reset]).preSpeechBuffer.length :
        Int) ≤ v16.paddingFrames ∧
    (processFrame v16 headCls
        { speechBuffer := [], preSpeechBuffer := [silA, silB],
          silenceFrames := 0, speechFrames := 0, isSpeaking := false,
          chunkBuffer := [] } silC).1.preSpeechBuffer =
      ([silA, silB] ++ [silC]).tail := by
  have h := C7_ring_capacity v16 headCls (by decide)
  exact ⟨h.1 [VADOp.chunk [], VADOp.reset], h.2 _ silC rfl (by decide)⟩

/-- C8: if the underlying classifier raises on a frame, `_is_speech` reports
non-speech for that frame, and the per-frame transition treats it exactly as
a non-speech frame (the error never escapes to `process_chunk`, whose
embedding over `isSpeechImpl raw` is total). -/
theorem C8_classifier_error_fail_open (raw : List Int → Except String Bool)
    (f : List Int) (e : String) (v : VAD) (s : VADState)
    (h : raw f = Except.error e) :
    isSpeechImpl raw f = false ∧
    processFrame v (isSpeechImpl raw) s f = processFrame v (fun _ => false) s f := by
  have hf : isSpeechImpl raw f = false := by
    unfold isSpeechImpl
    rw [h]
  exact ⟨hf, by simp only [processFrame, hf]⟩

/-- Witness for C8 at an always-raising classifier. -/
theorem C8_classifier_error_fail_open_witness :
    isSpeechImpl (fun _ => Except.error "vad error") silF = false ∧
    processFrame v16 (isSpeechImpl (fun _ => Except.error "vad error")) vadInit silF =
      processFrame v16 (fun _ => false) vadInit silF :=
  C8_classifier_error_fail_open (fun _ => Except.error "vad error") silF
    "vad error" v16 vadInit rfl

end Paula

namespace Paula

/-- C2 counterexample: constructing with negative millisecond thresholds
(silence, minimum-speech and padding all `-10`) does not raise; construction
succeeds with the thresholds truncated toward zero. -/
theorem C2_counterexample :
    mkVAD 16000 2 (-10) (-10) (-10) = Except.ok (vNeg, vadInit) := rfl

/-- C2 (amended): construction succeeds exactly when the sample rate is one
of 8000/16000/32000/48000 and the aggressiveness is 0-3; the millisecond
thresholds (negative included) are never validated, and a failed construction
produces no instance. -/
theorem C2_amended_construction_validation (sr ag stm msm spm : Int) :
    (∃ p, mkVAD sr ag stm msm spm = Except.ok p) ↔
      ((sr = 8000 ∨ sr = 16000 ∨ sr = 32000 ∨ sr = 48000) ∧
        0 ≤ ag ∧ ag < 4) := by
  unfold mkVAD
  by_cases h1 : sr ≠ 8000 ∧ sr ≠ 16000 ∧ sr ≠ 32000 ∧ sr ≠ 48000
  · rw [if_pos h1]
    constructor
    · rintro ⟨p, hp⟩
      exact absurd hp (by simp)
    · rintro ⟨hsr, -⟩
      tauto
  · rw [if_neg h1]
    by_cases h2 : ¬ (0 ≤ ag ∧ ag < 4)
    · rw [if_pos h2]
      constructor
      · rintro ⟨p, hp⟩
        exact absurd hp (by simp)
      · rintro ⟨-, hag⟩
        exact absurd hag h2
    · rw [if_neg h2]
      constructor
      · intro _
        exact ⟨by tauto, not_not.mp h2⟩
      · intro _
        exact ⟨_, rfl⟩

/-- C1 counterexample: after a single speech frame on a freshly constructed
detector (`mkVAD 16000 2 300 90 60`), `get_buffered_speech` returns no
segment (1 < 3 minimum speech frames) and leaves the state completely
untouched — still Speaking, nothing cleared — contradicting the claim that
it always resets. -/
theorem C1_counterexample :
    mkVAD 16000 2 300 90 60 = Except.ok (v16, vadInit) ∧
    (getBufferedSpeech v16 (processChunk v16 headCls vadInit spF).1).2 = none ∧
    (getBufferedSpeech v16 (processChunk v16 headCls vadInit spF).1).1 =
      (processChunk v16 headCls vadInit spF).1 ∧
    (processChunk v16 headCls vadInit spF).1.isSpeaking = true := by
  have hchunk : processChunk v16 headCls vadInit spF =
      processFrame v16 headCls vadInit spF :=
    processChunk_single v16 headCls vadInit spF rfl
      (by rw [spF_length]; rfl) (by decide)
  have hstart := processFrame_speech_start v16 headCls vadInit spF rfl rfl
  rw [hchunk, hstart]
  refine ⟨mkVAD_16k, ?_, ?_, rfl⟩ <;>
    simp [getBufferedSpeech, v16, vadInit]

/-- C1 (amended): `get_buffered_speech` returns a segment iff the speech
buffer is nonempty and `speechFrameCount ≥ minSpeechFrames` (the returned
segment being the concatenated buffer); it resets the state exactly when it
returns a segment, and when it returns nothing the state is left entirely
unchanged, not reset. -/
theorem C1_amended_get_buffered_speech (v : VAD) (s : VADState) :
    ((getBufferedSpeech v s).2 = none → (getBufferedSpeech v s).1 = s) ∧
    (∀ seg, (getBufferedSpeech v s).2 = some seg →
      (getBufferedSpeech v s).1 = vadInit ∧
      s.speechBuffer ≠ [] ∧ v.minSpeechFrames ≤ (s.speechFrames : Int) ∧
      seg = s.speechBuffer.flatten) ∧
    (s.speechBuffer ≠ [] → v.minSpeechFrames ≤ (s.speechFrames : Int) →
      (getBufferedSpeech v s).2 = some s.speechBuffer.flatten) := by
  unfold getBufferedSpeech
  by_cases h : s.speechBuffer ≠ [] ∧ v.minSpeechFrames ≤ (s.speechFrames : Int)
  · rw [if_pos h]
    refine ⟨?_, ?_, ?_⟩
    · intro hx
      exact absurd hx (by simp)
    · intro seg hseg
      simp only [Option.some.injEq] at hseg
      exact ⟨rfl, h.1, h.2, hseg.symm⟩
    · intro _ _
      rfl
  · rw [if_neg h]
    refine ⟨fun _ => rfl, fun seg hseg => absurd hseg (by simp), ?_⟩
    intro hne hge
    exact absurd ⟨hne, hge⟩ h

/-- Witness for the amended C1: on the fresh state the call returns nothing
and leaves the state as it was; on a buffered state meeting the minimum it
returns the concatenated buffer. -/
theorem C1_amended_get_buffered_speech_witness :
    (getBufferedSpeech v16 vadInit).1 = vadInit ∧
    (getBufferedSpeech v16
        { speechBuffer := [spF, spF, spF], preSpeechBuffer := [],
          silenceFrames := 0, speechFrames := 3, isSpeaking := true,
          chunkBuffer := [] }).2 =
      some ([spF, spF, spF] : List (List Int)).flatten :=
  ⟨(C1_amended_get_buffered_speech v16 vadInit).1 rfl,
    (C1_amended_get_buffered_speech v16
        { speechBuffer := [spF, spF, spF], preSpeechBuffer := [],
          silenceFrames := 0, speechFrames := 3, isSpeaking := true,
          chunkBuffer := [] }).2.2 (by decide) (by decide)⟩

end Paula

namespace Paula

/-- C4 counterexample: with `mkVAD 8000 2 30 60 0` (threshold 1 frame,
minimum 2 frames), the single chunk speech-speech-silence-speech-silence
makes the silence threshold fire twice in one call; the second evaluation
discards its 1-frame run, yet the call returns the FIRST evaluation's
segment rather than the second evaluation's (empty) outcome. -/
theorem C4_counterexample :
    mkVAD 8000 2 30 60 0 = Except.ok (vDouble, vadInit) ∧
    processChunk vDouble headCls vadInit (spA ++ spB ++ silA ++ spC ++ silB) =
      (vadInit, some (spA ++ spB ++ silA)) := by
  refine ⟨mkVAD_vDouble, ?_⟩
  set_option maxRecDepth 8000 in decide

/-- C4 (amended): a `process_chunk` call returns the LAST segment actually
emitted by its end-of-speech evaluations (earlier emitted segments are
dropped); an evaluation that fires but discards leaves the result slot — and
hence a possible earlier segment — in place. -/
theorem C4_amended_returns_last_emission (v : VAD) (cls : List Int → Bool)
    (s : VADState) (chunk : List Int) :
    (processChunk v cls s chunk).2 =
      ((frameEmissions v cls (s.chunkBuffer ++ chunk).length
          { s with chunkBuffer := s.chunkBuffer ++ chunk }).filterMap
        id).getLast? := by
  unfold processChunk
  dsimp only
  rw [runFrames_lastEmission, lastEmission_eq_getLast?, overwrite_none_right]

/-- C3 counterexample: with `mkVAD 8000 2 30 30 60`, after the Idle→Speaking
transition (silence frame then speech frame) the padding ring still holds the
pre-speech frame — it is not emptied — and over a longer run the pre-speech
frame `silA` is prepended to BOTH emitted segments. -/
theorem C3_counterexample :
    mkVAD 8000 2 30 30 60 = Except.ok (vTwo, vadInit) ∧
    (runChunks vTwo headCls vadInit [silA, spA]).1.isSpeaking = true ∧
    (runChunks vTwo headCls vadInit [silA, spA]).1.preSpeechBuffer = [silA] ∧
    (runChunks vTwo headCls vadInit [silA, spA, silB, spB, silC]).2.filterMap
        id = [silA ++ spA ++ silB, silA ++ silB ++ spB ++ silC] := by
  refine ⟨mkVAD_vTwo, ?_, ?_, ?_⟩ <;> set_option maxRecDepth 8000 in decide

/-- C3 (amended): at the Idle→Speaking transition the (nonempty) padding
ring's contents are copied into the fresh speech buffer, but the ring itself
is left unchanged — it is not drained, so its frames can also lead later
segments. -/
theorem C3_amended_ring_copied_not_cleared (v : VAD) (cls : List Int → Bool)
    (s : VADState) (f : List Int) (hc : cls f = true)
    (hs : s.isSpeaking = false) (hne : s.preSpeechBuffer ≠ []) :
    (processFrame v cls s f).1.preSpeechBuffer = s.preSpeechBuffer ∧
    (processFrame v cls s f).1.speechBuffer = s.preSpeechBuffer ++ [f] := by
  rw [processFrame_speech_start v cls s f hc hs]
  exact ⟨rfl, by rw [if_neg hne]⟩

/-- Witness for the amended C3 at a concrete ring and frame. -/
theorem C3_amended_ring_copied_not_cleared_witness :
    (processFrame vTwo headCls
        { speechBuffer := [], preSpeechBuffer := [silA], silenceFrames := 0,
          speechFrames := 0, isSpeaking := false, chunkBuffer := [] }
        spA).1.preSpeechBuffer = [silA] ∧
    (processFrame vTwo headCls
        { speechBuffer := [], preSpeechBuffer := [silA], silenceFrames := 0,
          speechFrames := 0, isSpeaking := false, chunkBuffer := [] }
        spA).1.speechBuffer = [silA] ++ [spA] :=
  C3_amended_ring_copied_not_cleared vTwo headCls _ spA rfl rfl (by decide)

end Paula

namespace Paula

/-- C6 counterexample: `mkVAD 8000 2 30 10 60` derives
`minSpeechFrames = 0` and `silenceFramesThreshold = 1`; feeding exactly
`minSpeechFrames` (= zero) speech frames followed by exactly
`silenceFramesThreshold` (= one) silence frames emits NO segment — the
detector never even leaves Idle — refuting "exactly one segment is
emitted". -/
theorem C6_counterexample :
    mkVAD 8000 2 30 10 60 = Except.ok (vShort, vadInit) ∧
    vShort.minSpeechFrames = 0 ∧ vShort.silenceFramesThreshold = 1 ∧
    (runChunks vShort headCls vadInit
        (List.replicate vShort.minSpeechFrames.toNat spA ++
          List.replicate vShort.silenceFramesThreshold.toNat silA)).2.filterMap
      id = [] := by
  refine ⟨mkVAD_vShort, rfl, rfl, ?_⟩
  set_option maxRecDepth 4000 in decide

/-- C6 (amended): provided `minSpeechFrames ≥ 1` and
`silenceFramesThreshold ≥ 1`, from Idle with zero counters (any ring
contents), a run of exactly `minSpeechFrames` speech frames followed by
exactly `silenceFramesThreshold` silence frames emits exactly one segment of
at least `minSpeechFrames * frameSize` samples, and the accumulator returns
to Idle with both counters zero. -/
theorem C6_amended_min_run_emits_once (v : VAD) (cls : List Int → Bool)
    (r0 sp sil : List (List Int)) (hpos : 0 < v.frameSize)
    (hmin1 : 1 ≤ v.minSpeechFrames) (hthr1 : 1 ≤ v.silenceFramesThreshold)
    (hsplen : sp.length = v.minSpeechFrames.toNat)
    (hsillen : sil.length = v.silenceFramesThreshold.toNat)
    (hspAll : ∀ f ∈ sp, cls f = true ∧ f.length = v.frameSize)
    (hsilAll : ∀ f ∈ sil, cls f = false ∧ f.length = v.frameSize) :
    ∃ seg,
      (runChunks v cls
          { speechBuffer := [], preSpeechBuffer := r0, silenceFrames := 0,
            speechFrames := 0, isSpeaking := false, chunkBuffer := [] }
          (sp ++ sil)).2.filterMap id = [seg] ∧
      v.minSpeechFrames.toNat * v.frameSize ≤ seg.length ∧
      (runChunks v cls
          { speechBuffer := [], preSpeechBuffer := r0, silenceFrames := 0,
            speechFrames := 0, isSpeaking := false, chunkBuffer := [] }
          (sp ++ sil)).1.isSpeaking = false ∧
      (runChunks v cls
          { speechBuffer := [], preSpeechBuffer := r0, silenceFrames := 0,
            speechFrames := 0, isSpeaking := false, chunkBuffer := [] }
          (sp ++ sil)).1.speechFrames = 0 ∧
      (runChunks v cls
          { speechBuffer := [], preSpeechBuffer := r0, silenceFrames := 0,
            speechFrames := 0, isSpeaking := false, chunkBuffer := [] }
          (sp ++ sil)).1.silenceFrames = 0 := by
  have hsp : sp ≠ [] := by
    intro h
    rw [h] at hsplen
    have : (0 : Int) = v.minSpeechFrames := by
      rw [show ((([] : List (List Int))).length) = 0 from rfl] at hsplen
      omega
    omega
  have hsil : sil ≠ [] := by
    intro h
    rw [h] at hsillen
    have : (0 : Int) = v.silenceFramesThreshold := by
      rw [show ((([] : List (List Int))).length) = 0 from rfl] at hsillen
      omega
    omega
  have hthr : (sil.length : Int) = v.silenceFramesThreshold := by
    rw [hsillen, Int.toNat_of_nonneg (by omega)]
  have hmin : v.minSpeechFrames ≤ (sp.length : Int) := by
    rw [hsplen, Int.toNat_of_nonneg (by omega)]
  obtain ⟨e1, e2, e3, e4, e5⟩ := runChunks_full_utterance v cls hpos r0 sp sil
    hsp hsil hspAll hsilAll hthr hmin
  refine ⟨(r0 ++ sp ++ sil).flatten, e1, ?_, e2, e3, e4⟩
  have hflat : (r0 ++ sp ++ sil).flatten =
      r0.flatten ++ (sp.flatten ++ sil.flatten) := by
    rw [List.flatten_append, List.flatten_append, List.append_assoc]
  rw [hflat]
  have hsplength : sp.flatten.length = sp.length * v.frameSize :=
    flatten_length_uniform v.frameSize sp (fun f hf => (hspAll f hf).2)
  simp only [List.length_append]
  rw [hsplength, hsplen]
  omega

set_option maxRecDepth 4000 in
/-- Witness for the amended C6 at `mkVAD 8000 2 30 30 60` (1 speech frame
minimum, 1 silence frame threshold) with a one-frame utterance. -/
theorem C6_amended_min_run_emits_once_witness :
    ∃ seg,
      (runChunks vTwo headCls
          { speechBuffer := [], preSpeechBuffer := [], silenceFrames := 0,
            speechFrames := 0, isSpeaking := false, chunkBuffer := [] }
          ([spA] ++ [silA])).2.filterMap id = [seg] ∧
      vTwo.minSpeechFrames.toNat * vTwo.frameSize ≤ seg.length ∧
      (runChunks vTwo headCls
          { speechBuffer := [], preSpeechBuffer := [], silenceFrames := 0,
            speechFrames := 0, isSpeaking := false, chunkBuffer := [] }
          ([spA] ++ [silA])).1.isSpeaking = false ∧
      (runChunks vTwo headCls
          { speechBuffer := [], preSpeechBuffer := [], silenceFrames := 0,
            speechFrames := 0, isSpeaking := false, chunkBuffer := [] }
          ([spA] ++ [silA])).1.speechFrames = 0 ∧
      (runChunks vTwo headCls
          { speechBuffer := [], preSpeechBuffer := [], silenceFrames := 0,
            speechFrames := 0, isSpeaking := false, chunkBuffer := [] }
          ([spA] ++ [silA])).1.silenceFrames = 0 :=
  C6_amended_min_run_emits_once vTwo headCls [] [spA] [silA] (by decide)
    (by decide) (by decide) (by decide) (by decide) (by decide) (by decide)

end Paula

namespace Paula

set_option maxRecDepth 8000 in
/-- C5: with `mkVAD 16000 2 300 90 60` (frame 480 samples, threshold 10
frames, minimum 3 frames, padding 2 frames), feeding 2 silence frames, 5
speech frames and 10 silence frames emits exactly one segment of exactly
`(2+5+10)*480 = 8160` samples; with only 2 speech frames instead of 5, no
segment is emitted. -/
theorem C5_concrete_scenario :
    mkVAD 16000 2 300 90 60 = Except.ok (v16, vadInit) ∧
    (((runChunks v16 headCls vadInit
        ([silF, silF] ++ (List.replicate 5 spF ++ List.replicate 10 silF))).2.filterMap
      id).map List.length) = [8160] ∧
    ((runChunks v16 headCls vadInit
        ([silF, silF] ++ (List.replicate 2 spF ++ List.replicate 10 silF))).2.filterMap
      id) = [] := by
  have h2sil : runChunks v16 headCls vadInit [silF, silF] =
      ({ speechBuffer := [], preSpeechBuffer := [silF, silF],
         silenceFrames := 0, speechFrames := 0, isSpeaking := false,
         chunkBuffer := [] }, [none, none]) := by
    decide
  refine ⟨mkVAD_16k, ?_, ?_⟩
  · rw [runChunks_append]
    simp only [h2sil]
    obtain ⟨e1, -, -, -, -⟩ := runChunks_full_utterance v16 headCls (by decide)
      [silF, silF] (List.replicate 5 spF) (List.replicate 10 silF)
      (by decide) (by decide) (by decide) (by decide) (by decide) (by decide)
    rw [List.filterMap_append, e1]
    have hlen : (([silF, silF] ++ List.replicate 5 spF ++
        List.replicate 10 silF).flatten).length =
        ([silF, silF] ++ List.replicate 5 spF ++
          List.replicate 10 silF).length * 480 :=
      flatten_length_uniform 480 _ (by decide)
    simp only [List.filterMap_cons, List.filterMap_nil, id]
    rw [List.nil_append, List.map_cons, List.map_nil, hlen]
    rfl
  · rw [runChunks_append]
    simp only [h2sil]
    obtain ⟨e1, -, -⟩ := runChunks_short_utterance v16 headCls (by decide)
      [silF, silF] (List.replicate 2 spF) (List.replicate 10 silF)
      (by decide) (by decide) (by decide) (by decide) (by decide) (by decide)
    rw [List.filterMap_append, e1]
    simp only [List.filterMap_cons, List.filterMap_nil, id]
    rfl

end Paula
